import Mathlib

/-!
Verification development for the `co3` repository.

We give a shallow embedding of the core pieces of the library:

* the collation registry built by `FormatRegistryMeta.__new__` in
  `src/co3/co3.py` (function `register_action`, folded over the sequence of
  decorated declarations seen while the type is created);
* the dispatch method `CO3.collate` (`src/co3/co3.py`, lines 246-268);
* the draft `Collector` in `src/co3/collector.py` (`add_insert`,
  `_inserts_from_receipts`, `collect_inserts`);
* `Relation.compose` from `src/co3/components/__init__.py`;
* the walk performed by `Mapper.collect` in `src/co3/mapper.py`.

Python dictionaries are embedded as association lists with insertion-order
semantics: `alistGet` returns the first binding, `alistInsert` overwrites the
binding in place, `alistAppend` models `defaultdict(list)[k].append(x)`, and
`alistErase` models `dict.pop(k, default)`'s removal of the key.
-/

namespace Co3

section AList

variable {α : Type} {β : Type} [DecidableEq α]

/-- First binding for a key in an association list (Python `dict` lookup). -/
def alistGet (k : α) : List (α × β) → Option β
  | [] => none
  | (k', v) :: rest => if k' = k then some v else alistGet k rest

/-- Overwrite the binding for `k` in place, or append a new binding at the end
(Python `dict.__setitem__`, which keeps the original position of the key). -/
def alistInsert (k : α) (v : β) : List (α × β) → List (α × β)
  | [] => [(k, v)]
  | (k', v') :: rest =>
      if k' = k then (k, v) :: rest else (k', v') :: alistInsert k v rest

/-- Python `defaultdict(list)`: append `x` to the list stored under `k`, creating the
entry `[x]` if the key is missing. -/
def alistAppend (k : α) (x : β) : List (α × List β) → List (α × List β)
  | [] => [(k, [x])]
  | (k', l) :: rest =>
      if k' = k then (k', l ++ [x]) :: rest else (k', l) :: alistAppend k x rest

/-- Remove every binding for `k` (Python `dict.pop(k, default)`'s effect on the
dictionary; real dictionaries hold at most one binding per key). -/
def alistErase (k : α) (l : List (α × β)) : List (α × β) :=
  l.filter (fun p => decide (p.1 ≠ k))

end AList

/-! ## The collation registry (`src/co3/co3.py`) -/

/-- Group names; `none` is the default `None` group that the `collate`
decorator assigns when `groups` is left unspecified. -/
abbrev GroupName := Option String

/-- Action keys as carried by `_collation_data`; `none` marks an implicit
(anonymous) registration. -/
abbrev ActionKey := Option String

/-- One decorated method as seen by `register_action`: its `_collation_data`
pair `(key, groups)` plus an opaque identifier standing for the Python function
object. -/
structure Decl where
  key    : ActionKey
  groups : List GroupName
  method : Nat
deriving DecidableEq

/-- The two registries assembled by `FormatRegistryMeta.__new__`.
`key_registry` holds the explicit entries `key -> (method, groups)`;
`anon` is the dictionary stored under the `None` key (`key_registry[None]`),
present in the Python dict exactly when `anon` is nonempty (the metaclass
creates it only straight before inserting an entry and never removes entries);
`group_registry` is the `defaultdict(list)` mapping each group to the keys
registered under it (`None` standing for implicit registrations). -/
structure Registry where
  key_registry   : List (String × (Nat × List GroupName))
  anon           : List (GroupName × Nat)
  group_registry : List (GroupName × List ActionKey)
deriving DecidableEq

/-- The `for group in groups: group_registry[group].append(key)` loop of
`register_action` (src/co3/co3.py, lines 172-173). -/
def appendGroups (key : ActionKey) (gs : List GroupName)
    (gr : List (GroupName × List ActionKey)) : List (GroupName × List ActionKey) :=
  gs.foldl (fun gr g => alistAppend g key gr) gr

/-- Function `register_action` from `FormatRegistryMeta.__new__` (src/co3/co3.py,
lines 156-173), acting on one decorated method. -/
def register_action (r : Registry) (d : Decl) : Registry :=
  match d.key with
  | none =>
      match d.groups with
      | [] => r
        -- the source would raise IndexError at `groups[0]`; the `collate`
        -- decorator never produces an implicit action with an empty group list
      | g0 :: _ =>
          { r with
            anon := alistInsert g0 d.method r.anon,
            group_registry := appendGroups d.key d.groups r.group_registry }
  | some k =>
      { r with
        key_registry := alistInsert k (d.method, d.groups) r.key_registry,
        group_registry := appendGroups d.key d.groups r.group_registry }

/-- The registry a declared CO3 subtype ends up with: `register_action` folded
over the sequence of decorated methods the metaclass encounters (superclass
chain first, most-base first, then the class's own attributes). -/
def buildRegistry (decls : List Decl) : Registry :=
  decls.foldl register_action ⟨[], [], []⟩

/-! ## `CO3.collate` (src/co3/co3.py, lines 246-268) -/

/-- Observable outcome of one `collate` call.  `invoked m callArgs` means the
registered method with identifier `m` was called as `m(self, *callArgs)` and
its result returned; `silent` means `collate` returned `None` without invoking
any registered method; `keyError` means the lookup `self.key_registry[None]`
raised `KeyError`. -/
inductive CollateResult
  | invoked (method : Nat) (callArgs : List String)
  | silent
  | keyError
deriving DecidableEq

/-- Method `CO3.collate(self, key, group=None, *args)`. -/
def collate (r : Registry) (key : Option String) (group : Option String)
    (args : List String) : CollateResult :=
  match key with
  | none => .silent             -- `if key is None: return None`
  | some k =>
      match alistGet k r.key_registry with
      | some (m, _) => .invoked m args   -- explicit key: `method(self, *args)`
      | none =>
          match group with
          | none => .silent              -- debug log, then `return None`
          | some g =>
              match r.anon with
              | [] => .keyError
                -- `self.key_registry[None]` raises KeyError when no implicit
                -- registration ever created the `None` entry
              | _ :: _ =>
                  match alistGet (some g) r.anon with
                  | some m => .invoked m (k :: args)  -- `method(self, key, *args)`
                  | none => .silent                   -- debug log, `return None`

/-! ## Registry consistency predicate (spec section 8, claim C3) -/

/-- The key `k` (an explicit key or the anonymous `None` marker) is recorded in
`key_registry` with group `g`: an explicit key must carry `g` in its group
list, the anonymous marker must have an entry for `g` in the anonymous-key map
`key_registry[None]`. -/
def keyHasGroup (r : Registry) (g : GroupName) (k : ActionKey) : Prop :=
  match k with
  | some k' => ∃ mth gs, alistGet k' r.key_registry = some (mth, gs) ∧ g ∈ gs
  | none => ∃ mth, alistGet g r.anon = some mth

/-- Bidirectional agreement of the two registries, as claim C3 states it:
every key listed under a group in `group_registry` is recorded in
`key_registry` (or the anonymous-key map) with that group, and conversely every
group recorded for a key lists that key. -/
def registryConsistent (r : Registry) : Prop :=
  (∀ g keys, alistGet g r.group_registry = some keys → ∀ k ∈ keys, keyHasGroup r g k)
  ∧ (∀ k mth gs, alistGet k r.key_registry = some (mth, gs) →
      ∀ g ∈ gs, ∃ keys, alistGet g r.group_registry = some keys ∧ (some k) ∈ keys)
  ∧ (∀ g mth, alistGet g r.anon = some mth →
      ∃ keys, alistGet g r.group_registry = some keys ∧ (none : ActionKey) ∈ keys)

/-- No explicit key is declared twice with differing group lists. -/
def UniqueKeyGroups (decls : List Decl) : Prop :=
  ∀ d1 ∈ decls, ∀ d2 ∈ decls, d1.key ≠ none → d1.key = d2.key → d1.groups = d2.groups

/-- Every implicit declaration carries exactly one group (which is what the
`collate` decorator produces: `groups = [func.__name__]`). -/
def ImplicitSingleGroup (decls : List Decl) : Prop :=
  ∀ d ∈ decls, d.key = none → d.groups.length = 1

instance (decls : List Decl) : Decidable (UniqueKeyGroups decls) :=
  inferInstanceAs (Decidable (∀ d1 ∈ decls, ∀ d2 ∈ decls,
    d1.key ≠ none → d1.key = d2.key → d1.groups = d2.groups))

instance (decls : List Decl) : Decidable (ImplicitSingleGroup decls) :=
  inferInstanceAs (Decidable (∀ d ∈ decls, d.key = none → d.groups.length = 1))

/-- The groups stored for `k` come from some declaration of `k`. -/
def KeyGroupsOf (decls : List Decl) (k : String) (gs : List GroupName) : Prop :=
  ∃ d ∈ decls, d.key = some k ∧ d.groups = gs

/-- Induction invariant while folding `register_action` over the declarations:
the registry is consistent and its explicit entries trace back to decls. -/
def RegInv (decls : List Decl) (r : Registry) : Prop :=
  registryConsistent r ∧
  ∀ k mth gs, alistGet k r.key_registry = some (mth, gs) → KeyGroupsOf decls k gs

/-- Redeclaring the key `"k"`: first with group `"g1"` (the base class), then
with group `"g2"` only (the derived class).  The derived registration
overwrites `key_registry["k"]` wholesale while `group_registry["g1"]` keeps the
key — the counterexample to claim C3. -/
def cexDecls : List Decl :=
  [⟨some "k", [some "g1"], 0⟩, ⟨some "k", [some "g2"], 1⟩]

/-- Declarations mirroring the `Tomato` setup of `src/tests/setups/vegetables.py`:
three explicit keys and the implicit `cut` handler. -/
def tomatoDecls : List Decl :=
  [⟨none, [some "cut"], 0⟩,
   ⟨some "ripe", [some "aging"], 1⟩,
   ⟨some "rotten", [some "aging"], 2⟩,
   ⟨some "diced", [some "cooking"], 3⟩]

/-! ## The draft `Collector` (src/co3/collector.py) -/

/-- One insert dictionary (column name -> value). -/
abbrev Payload := List (String × String)

/-- One receipt's bucket: table name -> list of prepared insert dictionaries. -/
abbrev Bucket := List (String × List Payload)

/-- The session store `self._inserts`: receipt -> bucket. -/
abbrev Store := List (String × Bucket)

/-- Python exceptions that the embedded code can raise. -/
inductive PyErr
  | nameError (name : String)
  | attributeError (attr : String)
  | keyError
deriving DecidableEq

/-- The module object `tables` that `Collector.add_insert` dereferences. -/
structure TablesModule where
  table_map : List String
deriving DecidableEq

/-- The global name `tables` in module `co3.collector`: the import
`from localsys.db.schema import tables` is commented out (line 33), so the
name is unbound. -/
def collector_globals_tables : Option TablesModule := none

/-- The global name `utils` referenced at line 79 (`utils.db.prepare_insert`):
the module imports `util`, not `utils`, so this name is unbound as well. -/
def collector_globals_utils : Option Unit := none

/-- Method `Collector.add_insert(self, table_name, insert_dict, receipts=None)`
(src/co3/collector.py, lines 67-88).  `freshReceipt` stands for the value
`str(uuid4())` that `_generate_unique_receipt` would mint.  Resolution of the
unbound global `tables` on the first line raises `NameError` before anything
else happens. -/
def Collector.add_insert (store : Store) (freshReceipt : String)
    (table_name : String) (insert_dict : Payload) (receipts : List String) :
    Except PyErr (Option String × Store × List String) :=
  match collector_globals_tables with
  | none => .error (.nameError "tables")
  | some tables =>
      if table_name ∈ tables.table_map then
        match collector_globals_utils with
        | none => .error (.nameError "utils")
        | some _ =>
            .ok (some freshReceipt,
                 alistInsert freshReceipt
                   (alistAppend table_name insert_dict
                     ((alistGet freshReceipt store).getD [])) store,
                 receipts ++ [freshReceipt])
      else
        .ok (none, store, receipts)

/-- Models `inserts[table].extend(insert_list)` on a `defaultdict(list)`: append a
whole list under a key, creating the entry when the key is missing. -/
def alistExtend (k : String) (xs : List Payload) :
    List (String × List Payload) → List (String × List Payload)
  | [] => [(k, xs)]
  | (k', l) :: rest =>
      if k' = k then (k', l ++ xs) :: rest else (k', l) :: alistExtend k xs rest

/-- The inner loop of `_inserts_from_receipts`:
`for table, insert_list in insert_dict.items(): inserts[table].extend(insert_list)`. -/
def mergeBucket (acc : List (String × List Payload)) (b : Bucket) :
    List (String × List Payload) :=
  b.foldl (fun acc p => alistExtend p.1 p.2 acc) acc

/-- All payload lists stored for table `t` in a bucket, concatenated (a bucket
built by the code holds at most one entry per table, so this is that entry's
list). -/
def bucketConcat (t : String) (b : Bucket) : List Payload :=
  ((b.filter (fun p => decide (p.1 = t))).map Prod.snd).flatten

/-- The receipt loop of `_inserts_from_receipts` (src/co3/collector.py,
lines 52-57), threading the evolving store.  With `pop` set, a receipt is
removed via `self._inserts.pop(receipt, {})`; without it, indexing the
`defaultdict` creates an empty bucket for a missing receipt. -/
def insertsFromReceiptsGo (pop : Bool) :
    Store → List (String × List Payload) → List String →
    (List (String × List Payload)) × Store
  | store, acc, [] => (acc, store)
  | store, acc, r :: rs =>
      if pop then
        insertsFromReceiptsGo pop (alistErase r store)
          (mergeBucket acc ((alistGet r store).getD [])) rs
      else
        match alistGet r store with
        | some b => insertsFromReceiptsGo pop store (mergeBucket acc b) rs
        | none => insertsFromReceiptsGo pop (store ++ [(r, [])]) acc rs

/-- Method `Collector._inserts_from_receipts(self, receipts=None, pop=False)`
(src/co3/collector.py, lines 46-59): when `receipts` is omitted it operates
over every receipt currently held. -/
def Collector.inserts_from_receipts (store : Store)
    (receipts : Option (List String)) (pop : Bool) :
    (List (String × List Payload)) × Store :=
  insertsFromReceiptsGo pop store [] (receipts.getD (store.map Prod.fst))

/-- Method `Collector.collect_inserts(self, receipts=None)` (src/co3/collector.py,
lines 90-110): flush the selected receipts. -/
def Collector.collect_inserts (store : Store) (receipts : Option (List String)) :
    (List (String × List Payload)) × Store :=
  Collector.inserts_from_receipts store receipts true

/-! ## `Relation.compose` (src/co3/components/__init__.py, lines 49-55) -/

/-- A `Relation` component: a name plus the wrapped backend object (opaque
here).  `SQLTable` and `Dictionary` inherit `compose` unchanged. -/
structure Relation where
  name : String
  obj  : String
deriving DecidableEq

/-- Method `Relation.compose(self, _with, on, outer=False)`: the body is
`return self` (the `on` parameter is named `onCond` here because `on` is a
reserved token in Lean). -/
def Relation.compose (self : Relation) (_with : Relation) (onCond : String)
    (outer : Bool) : Relation :=
  self

/-! ## `Mapper.collect` (src/co3/mapper.py, lines 173-246) -/

/-- Modelled from the spec: the Collector state that `Mapper.collect` stages
inserts into.  The draft `Collector` under src/co3/collector.py cannot be the
collector the Mapper constructs (its `__init__` takes no schema argument and
its `add_insert` dereferences the unbound global `tables`), so the session
store is taken from spec section 4.7: receipt -> (Component -> payload list),
with `next` the source of fresh opaque receipt tokens. -/
structure MState where
  store : List (Nat × List (String × List Payload))
  next  : Nat

instance : DecidableEq (Nat × List (String × List Payload)) := instDecidableEqProd

instance : DecidableEq MState := fun a b =>
  decidable_of_iff
    (a.store = b.store ∧ a.next = b.next)
    (by cases a; cases b; simp)

/-- Modelled from the spec (section 4.7): `add_insert(component, payload,
receipts)` mints a fresh receipt, appends the payload under the component in
that fresh receipt's bucket, appends the receipt to the caller's accumulator
list, and returns the receipt. -/
def MState.add_insert (st : MState) (component : String) (payload : Payload)
    (receipts : List Nat) : MState × List Nat × Nat :=
  (⟨st.store ++ [(st.next, [(component, [payload])])], st.next + 1⟩,
   receipts ++ [st.next], st.next)

/-- A Python object as filtered by `isinstance(c, CO3)` in `Mapper.collect`
line 243. -/
inductive PyVal
  | co3Obj
  | other
deriving DecidableEq

/-- A CO3 instance as `Mapper.collect` consumes it: `walk` is
`reversed(obj.__class__.__mro__[:-2])` (ancestor class names, most-base
first), `attributes` is the `attributes` property, `registry` the class
registry, `methodReturns` the value a registered method returns when invoked,
`collationAttributes` the `collation_attributes` hook, and `components` the
`components` property. -/
structure CObj where
  walk : List String
  attributes : Payload
  registry : Registry
  methodReturns : Nat → Option Payload
  collationAttributes : String → GroupName → Payload
  components : List PyVal

/-- Models `obj.collate(action_key)` as called at src/co3/mapper.py line 217: group
`None`, no extra arguments; the value is the invoked method's return value,
or `None` on a silent miss. -/
def CObj.collateValue (o : CObj) (key : String) : Option Payload :=
  match collate o.registry (some key) none [] with
  | .invoked m _ => o.methodReturns m
  | _ => none

/-- The Mapper's two attachment maps, as read by `get_attribute_comp` and
`get_collation_comp` (components are identified by name). -/
structure MapperCfg where
  attrComp : String → Option String
  collComp : String → GroupName → Option String

/-- The body of the `for action_key in action_keys:` loop (src/co3/mapper.py,
lines 216-240).  When `collate` returns data, line 223 reads
`obj.action_registry`, but `CO3` defines only `key_registry` and
`group_registry`, so the attribute lookup raises `AttributeError` before any
collation insert is staged. -/
def collectKey (o : CObj) (acc : MState × List Nat) (key : String) :
    Except PyErr (MState × List Nat) :=
  match o.collateValue key with
  | none => .ok acc      -- `if collation_data is None: continue`
  | some _ => .error (.attributeError "action_registry")

/-- One iteration of the ancestor walk (src/co3/mapper.py, lines 203-240):
an ancestor with no attribute component is skipped wholesale (`continue`,
line 208); otherwise its attribute insert is staged and the action keys are
processed. -/
def collectCls (m : MapperCfg) (o : CObj) (keys : List String)
    (acc : MState × List Nat) (cls : String) : Except PyErr (MState × List Nat) :=
  match m.attrComp cls with
  | none => .ok acc
  | some attribute_component =>
      let s := acc.1.add_insert attribute_component o.attributes acc.2
      keys.foldlM (collectKey o) (s.1, s.2.1)

/-- Method `Mapper.collect(self, obj, action_keys=None, action_groups=None)`
(src/co3/mapper.py, lines 173-246).  After the ancestor walk, line 244 runs
`comp.collect(collector, formats=formats)` for every CO3-typed component:
CO3 objects have no `collect` method (and `collector`/`formats` are unbound
names), so a nonempty CO3 component list raises before returning. -/
def Mapper.collect (m : MapperCfg) (o : CObj) (action_keys : Option (List String))
    (st0 : MState) : Except PyErr (MState × List Nat) := do
  let keys := action_keys.getD []
  let acc ← o.walk.foldlM (collectCls m o keys) (st0, [])
  match o.components.filter (fun c => decide (c = .co3Obj)) with
  | [] => .ok acc
  | _ :: _ => .error (.attributeError "collect")

/-- Mapper attachments for the C5 counterexample: the single ancestor `"X"`
has no attribute component but a collation component `"CX"` for group `"g"`. -/
def cfgC5 : MapperCfg where
  attrComp := fun _ => none
  collComp := fun cls g => if cls = "X" ∧ g = some "g" then some "CX" else none

/-- Instance for the C5 counterexample: its type registers the explicit key
`"k"` under group `"g"`, and the registered method returns data. -/
def objC5 : CObj where
  walk := ["X"]
  attributes := [("a", "1")]
  registry := buildRegistry [⟨some "k", [some "g"], 0⟩]
  methodReturns := fun m => if m = 0 then some [("d", "2")] else none
  collationAttributes := fun _ _ => []
  components := []

/-- Mapper attachments for the C9 failing input. -/
def cfgC9 : MapperCfg where
  attrComp := fun cls => if cls = "Y" then some "TY" else none
  collComp := fun _ _ => none

/-- Instance for the C9 failing input: one attached ancestor and one nested
CO3 component. -/
def objC9 : CObj where
  walk := ["Y"]
  attributes := [("n", "t1")]
  registry := buildRegistry []
  methodReturns := fun _ => none
  collationAttributes := fun _ _ => []
  components := [.co3Obj]

/-! ## Association-list lemmas -/

section AListLemmas

variable {α : Type} {β : Type} [DecidableEq α]

@[simp] theorem alistGet_nil (k : α) : alistGet k ([] : List (α × β)) = none := rfl

@[simp] theorem alistGet_cons (k k' : α) (v : β) (l : List (α × β)) :
    alistGet k ((k', v) :: l) = if k' = k then some v else alistGet k l := rfl

theorem alistGet_insert_self (k : α) (v : β) (l : List (α × β)) :
    alistGet k (alistInsert k v l) = some v := by
  induction l with
  | nil => simp [alistInsert]
  | cons p rest ih =>
      obtain ⟨k', v'⟩ := p
      by_cases h : k' = k <;> simp [alistInsert, h, ih]

theorem alistGet_insert_ne (k k0 : α) (v : β) (l : List (α × β)) (h : k0 ≠ k) :
    alistGet k (alistInsert k0 v l) = alistGet k l := by
  induction l with
  | nil => simp [alistInsert, h]
  | cons p rest ih =>
      obtain ⟨k', v'⟩ := p
      by_cases hk : k' = k0
      · subst hk
        simp [alistInsert, h]
      · simp [alistInsert, hk, ih]

theorem alistGet_append_self (k : α) (x : β) (l : List (α × List β)) :
    alistGet k (alistAppend k x l) =
      some ((alistGet k l).getD [] ++ [x]) := by
  induction l with
  | nil => simp [alistAppend]
  | cons p rest ih =>
      obtain ⟨k', l'⟩ := p
      by_cases h : k' = k <;> simp [alistAppend, h, ih]

theorem alistGet_append_ne (k k0 : α) (x : β) (l : List (α × List β)) (h : k0 ≠ k) :
    alistGet k (alistAppend k0 x l) = alistGet k l := by
  induction l with
  | nil => simp [alistAppend, h]
  | cons p rest ih =>
      obtain ⟨k', l'⟩ := p
      by_cases hk : k' = k0
      · subst hk
        simp [alistAppend, h]
      · simp [alistAppend, hk, ih]

theorem alistGet_erase_self (k : α) (l : List (α × β)) :
    alistGet k (alistErase k l) = none := by
  induction l with
  | nil => simp [alistErase]
  | cons p rest ih =>
      obtain ⟨k', v'⟩ := p
      by_cases h : k' = k
      · simpa [alistErase, List.filter_cons, h] using ih
      · simpa [alistErase, List.filter_cons, h] using ih

theorem alistGet_erase_ne (k k0 : α) (l : List (α × β)) (h : k0 ≠ k) :
    alistGet k (alistErase k0 l) = alistGet k l := by
  induction l with
  | nil => simp [alistErase]
  | cons p rest ih =>
      obtain ⟨k', v'⟩ := p
      by_cases hk : k' = k0
      · simpa [alistErase, List.filter_cons, hk, h] using ih
      · by_cases hkk : k' = k
        · have h3 : ¬ k = k0 := fun he => h he.symm
          simp [alistErase, List.filter_cons, hk, hkk, h3]
        · simpa [alistErase, List.filter_cons, hk, hkk] using ih

end AListLemmas

/-! ## Claims about `CO3.collate` (C1, C2, C10) -/

/-- C1: for every registry and every key `k` not present in `key_registry`,
`collate(k)` with no group argument returns `None` and invokes no registered
method, even if an implicit (anonymous) handler is registered for some group
that would otherwise match (`r.anon` is unconstrained here). -/
theorem collate_unregistered_no_group_silent (r : Registry) (k : String)
    (args : List String) (h : alistGet k r.key_registry = none) :
    collate r (some k) none args = .silent := by
  simp [collate, h]

/-- Witness for C1 at a registry that does hold an implicit handler (for group
`"wild"`) which would match the key if the group were named. -/
theorem collate_unregistered_no_group_silent_witness :
    alistGet "missing" (buildRegistry [⟨none, [some "wild"], 7⟩]).key_registry = none
    ∧ collate (buildRegistry [⟨none, [some "wild"], 7⟩]) (some "missing") none []
        = .silent :=
  ⟨by decide, collate_unregistered_no_group_silent _ _ _ (by decide)⟩

/-- C2 (evaluation at the failing input): `buildRegistry []` is the registry of
a CO3 subtype with no decorated methods at all.  Calling
`collate('missing', group='g')` on such an instance reaches
`self.key_registry[None]` (src/co3/co3.py, line 258) with no `None` entry
present, so the call raises `KeyError` instead of failing silently with `None`
as the claim states. -/
theorem collate_no_implicit_registrations_keyerror :
    collate (buildRegistry []) (some "missing") (some "g") ["a"] = .keyError := by
  decide

/-- C10: `collate` with `key=None` returns `None` immediately, before any
registry lookup and regardless of the group argument or the contents of the
anonymous wildcard table, so no registered method can be dispatched by passing
`None` as the key. -/
theorem collate_none_key_silent (r : Registry) (g : Option String)
    (args : List String) : collate r none g args = .silent := rfl

/-! ## Claim C6: `Collector.add_insert` -/

/-- C6 (evaluation at the failing input): every call to the draft
`Collector.add_insert` resolves the global name `tables` on its first line
(src/co3/collector.py, line 72), whose import is commented out, so the call
raises `NameError` — no receipt is minted, no payload appended, nothing
returned, contrary to the claim. -/
theorem add_insert_nameerror (store : Store) (freshReceipt table_name : String)
    (insert_dict : Payload) (receipts : List String) :
    Collector.add_insert store freshReceipt table_name insert_dict receipts
      = .error (.nameError "tables") := rfl

/-! ## Claim C7: `Relation.compose` -/

/-- C7 counterexample: composing two distinct relations returns the left
operand itself — `compose` does not produce a new derived Relation
representing the join, contradicting the claim's "not `a` itself". -/
theorem compose_returns_self_cex :
    Relation.compose ⟨"A", "table_a"⟩ ⟨"B", "table_b"⟩ "A.name == B.name" true
        = (⟨"A", "table_a"⟩ : Relation)
    ∧ (⟨"A", "table_a"⟩ : Relation) ≠ (⟨"B", "table_b"⟩ : Relation) := by
  exact ⟨rfl, by decide⟩

/-- C7 (amended): `Relation.compose` returns its receiver unchanged — a
structural placeholder, not a new derived Relation — and since the result is
again a Relation it remains composable, so a left-fold across any list of
relations is well-defined but collapses to the initial relation. -/
theorem compose_left_fold_identity (a b : Relation) (onCond : String)
    (outer : Bool) (rels : List (Relation × String × Bool)) :
    Relation.compose a b onCond outer = a
    ∧ rels.foldl (fun acc r => Relation.compose acc r.1 r.2.1 r.2.2) a = a := by
  refine ⟨rfl, ?_⟩
  induction rels with
  | nil => rfl
  | cons r rest ih => simp [Relation.compose, ih]

/-! ## Claim C4: the override law -/

theorem register_action_key_ne (r : Registry) (d : Decl) (k : String)
    (hd : d.key ≠ some k) :
    alistGet k (register_action r d).key_registry = alistGet k r.key_registry := by
  obtain ⟨dkey, dgroups, dmethod⟩ := d
  cases dkey with
  | none => cases dgroups <;> rfl
  | some k' =>
      have hne : k' ≠ k := fun he => hd (by simp [he])
      simp [register_action, alistGet_insert_ne _ _ _ _ hne]

theorem foldl_register_key_ne (l : List Decl) (r : Registry) (k : String)
    (h : ∀ d ∈ l, d.key ≠ some k) :
    alistGet k (l.foldl register_action r).key_registry
      = alistGet k r.key_registry := by
  induction l generalizing r with
  | nil => rfl
  | cons d rest ih =>
      rw [List.foldl_cons,
        ih _ (fun d' hd' => h d' (List.mem_cons_of_mem _ hd')),
        register_action_key_ne _ _ _ (h d (List.mem_cons_self _ _))]

/-- C4: when a derived type redeclares an explicit key `k` already registered
by a base type (the base's declarations are in `pre`, the derived declaration
is the distinguished one, `post` is whatever is registered afterwards without
touching `k`), the `key_registry` entry for `k` is overwritten wholesale —
the recorded groups are exactly the derived declaration's — and dispatch via
`collate(k)` invokes the derived implementation (for any group argument). -/
theorem override_law (pre post : List Decl) (k : String) (gs : List GroupName)
    (m : Nat) (hpost : ∀ d ∈ post, d.key ≠ some k) :
    alistGet k (buildRegistry (pre ++ ⟨some k, gs, m⟩ :: post)).key_registry
        = some (m, gs)
    ∧ ∀ (g : Option String) (args : List String),
        collate (buildRegistry (pre ++ ⟨some k, gs, m⟩ :: post)) (some k) g args
          = .invoked m args := by
  have h1 : alistGet k
      (buildRegistry (pre ++ ⟨some k, gs, m⟩ :: post)).key_registry
      = some (m, gs) := by
    unfold buildRegistry
    rw [List.foldl_append, List.foldl_cons, foldl_register_key_ne post _ k hpost]
    simp [register_action, alistGet_insert_self]
  exact ⟨h1, fun g args => by simp [collate, h1]⟩

/-- Witness for C4: the base class registers `"k"` under groups `g1` and
`g2`; the derived class re-registers `"k"` under `g2` only (a later unrelated
registration follows).  The final entry holds the derived method `1` with
exactly `[g2]` — group `g1` is dropped — and dispatch invokes method `1`. -/
theorem override_law_witness :
    (∀ d ∈ ([⟨some "other", [some "g3"], 5⟩] : List Decl), d.key ≠ some "k")
    ∧ alistGet "k" (buildRegistry
        ([⟨some "k", [some "g1", some "g2"], 0⟩]
          ++ ⟨some "k", [some "g2"], 1⟩ :: [⟨some "other", [some "g3"], 5⟩])).key_registry
        = some (1, [some "g2"])
    ∧ collate (buildRegistry
        ([⟨some "k", [some "g1", some "g2"], 0⟩]
          ++ ⟨some "k", [some "g2"], 1⟩ :: [⟨some "other", [some "g3"], 5⟩]))
        (some "k") none [] = .invoked 1 [] :=
  ⟨by decide,
   (override_law [⟨some "k", [some "g1", some "g2"], 0⟩]
     [⟨some "other", [some "g3"], 5⟩] "k" [some "g2"] 1 (by decide)).1,
   (override_law [⟨some "k", [some "g1", some "g2"], 0⟩]
     [⟨some "other", [some "g3"], 5⟩] "k" [some "g2"] 1 (by decide)).2 none []⟩

/-! ## Claims C5 and C9: `Mapper.collect` -/

/-- C5 counterexample: the single ancestor `"X"` has no attribute component
but does have a collation component `"CX"` attached for group `"g"`; the
requested key `"k"` is registered under `"g"` and its method returns data.
The claim says the collation insert for `"CX"` is still staged, but
`Mapper.collect` leaves the session store empty and returns no receipts: the
`continue` at src/co3/mapper.py line 208 skips the ancestor wholesale. -/
theorem collect_unattached_ancestor_cex :
    cfgC5.collComp "X" (some "g") = some "CX"
    ∧ objC5.collateValue "k" = some [("d", "2")]
    ∧ Mapper.collect cfgC5 objC5 (some ["k"]) ⟨[], 0⟩ = .ok (⟨[], 0⟩, []) :=
  ⟨rfl, rfl, rfl⟩

theorem except_bind_congr {ε α β : Type} (a : Except ε α) (f g : α → Except ε β)
    (h : ∀ x, f x = g x) : (a >>= f) = (a >>= g) := by
  cases a with
  | error e => rfl
  | ok v => exact h v

theorem foldlM_collectCls_filter (m : MapperCfg) (o : CObj) (keys : List String)
    (l : List String) (acc : MState × List Nat) :
    (l.filter (fun c => (m.attrComp c).isSome)).foldlM (collectCls m o keys) acc
      = l.foldlM (collectCls m o keys) acc := by
  induction l generalizing acc with
  | nil => rfl
  | cons c rest ih =>
      by_cases h : (m.attrComp c).isSome
      · rw [List.filter_cons_of_pos (by simpa using h), List.foldlM_cons,
          List.foldlM_cons]
        exact except_bind_congr _ _ _ (fun b => ih b)
      · have hnone : m.attrComp c = none := by
          cases hh : m.attrComp c with
          | none => rfl
          | some v => rw [hh] at h; simp at h
        rw [List.filter_cons_of_neg (by simpa using h), List.foldlM_cons]
        have hok : collectCls m o keys acc c = .ok acc := by
          simp [collectCls, hnone]
        rw [hok]
        exact ih acc

/-- C5 (amended): an ancestor type with no attribute Component registered is
skipped entirely — neither its attribute insert nor any collation inserts tied
to its groups are staged; `Mapper.collect` behaves exactly as if the walk were
restricted to the ancestors that have an attribute Component. -/
theorem collect_filters_unattached_ancestors (m : MapperCfg) (o : CObj)
    (ks : Option (List String)) (st0 : MState) :
    Mapper.collect m
        { o with walk := o.walk.filter (fun c => (m.attrComp c).isSome) } ks st0
      = Mapper.collect m o ks st0 := by
  have hfun : collectCls m
      { o with walk := o.walk.filter (fun c => (m.attrComp c).isSome) }
      = collectCls m o := rfl
  unfold Mapper.collect
  dsimp only
  rw [hfun, foldlM_collectCls_filter]

/-- C9 (evaluation at the failing input): an instance whose `components`
accessor returns one nested CO3 object.  The walk succeeds (its ancestor
`"Y"` has an attribute component), but the nested-component loop at
src/co3/mapper.py line 244 calls `comp.collect(collector, formats=formats)`:
CO3 objects define no `collect` method and the names `collector` and
`formats` are unbound, so `Mapper.collect` raises instead of recursing and
returning the accumulated receipts. -/
theorem collect_nested_components_raises :
    Mapper.collect cfgC9 objC9 none ⟨[], 0⟩
      = .error (.attributeError "collect") := rfl

/-! ## Claim C8: `Collector.collect_inserts` session isolation -/

theorem alistGet_extend_self (k : String) (xs : List Payload)
    (l : List (String × List Payload)) :
    alistGet k (alistExtend k xs l) = some ((alistGet k l).getD [] ++ xs) := by
  induction l with
  | nil => simp [alistExtend]
  | cons p rest ih =>
      obtain ⟨k', l'⟩ := p
      by_cases h : k' = k <;> simp [alistExtend, h, ih]

theorem alistGet_extend_ne (k k0 : String) (xs : List Payload)
    (l : List (String × List Payload)) (h : k0 ≠ k) :
    alistGet k (alistExtend k0 xs l) = alistGet k l := by
  induction l with
  | nil => simp [alistExtend, h]
  | cons p rest ih =>
      obtain ⟨k', l'⟩ := p
      by_cases hk : k' = k0
      · subst hk
        simp [alistExtend, h]
      · simp [alistExtend, hk, ih]

theorem mergeBucket_get (t : String) (acc : List (String × List Payload))
    (b : Bucket) :
    (alistGet t (mergeBucket acc b)).getD []
      = (alistGet t acc).getD [] ++ bucketConcat t b := by
  induction b generalizing acc with
  | nil => simp [mergeBucket, bucketConcat]
  | cons p rest ih =>
      obtain ⟨t', l⟩ := p
      show (alistGet t (mergeBucket (alistExtend t' l acc) rest)).getD [] = _
      rw [ih]
      by_cases h : t' = t
      · subst h
        rw [alistGet_extend_self]
        simp [bucketConcat, List.filter_cons]
      · rw [alistGet_extend_ne _ _ _ _ h]
        simp [bucketConcat, List.filter_cons, h]

theorem insertsGo_pop_frame (rs : List String) :
    ∀ (store : Store) (acc : List (String × List Payload)) (A : String),
      A ∉ rs →
      alistGet A (insertsFromReceiptsGo true store acc rs).2 = alistGet A store := by
  induction rs with
  | nil => intro store acc A hA; rfl
  | cons r rest ih =>
      intro store acc A hA
      have hr : r ≠ A := fun he => hA (by simp [he])
      have hA' : A ∉ rest := fun hmem => hA (List.mem_cons_of_mem _ hmem)
      show alistGet A (insertsFromReceiptsGo true (alistErase r store)
        (mergeBucket acc ((alistGet r store).getD [])) rest).2 = _
      rw [ih _ _ _ hA', alistGet_erase_ne _ _ _ hr]

theorem insertsGo_pop_removed (rs : List String) :
    ∀ (store : Store) (acc : List (String × List Payload)) (r0 : String),
      r0 ∈ rs →
      alistGet r0 (insertsFromReceiptsGo true store acc rs).2 = none := by
  induction rs with
  | nil => intro store acc r0 h; cases h
  | cons r rest ih =>
      intro store acc r0 h
      show alistGet r0 (insertsFromReceiptsGo true (alistErase r store)
        (mergeBucket acc ((alistGet r store).getD [])) rest).2 = none
      by_cases hmem : r0 ∈ rest
      · exact ih _ _ _ hmem
      · have hr : r0 = r := by
          rcases List.mem_cons.1 h with h1 | h1
          · exact h1
          · exact absurd h1 hmem
        subst hr
        rw [insertsGo_pop_frame rest _ _ r0 hmem, alistGet_erase_self]

theorem insertsGo_pop_merged (rs : List String) :
    ∀ (store : Store) (acc : List (String × List Payload)),
      rs.Nodup → ∀ t,
      (alistGet t (insertsFromReceiptsGo true store acc rs).1).getD []
        = (alistGet t acc).getD []
          ++ (rs.map (fun r => bucketConcat t ((alistGet r store).getD []))).flatten := by
  induction rs with
  | nil => intro store acc hnd t; simp [insertsFromReceiptsGo]
  | cons r rest ih =>
      intro store acc hnd t
      have hnotin : r ∉ rest := (List.nodup_cons.1 hnd).1
      have hnd' : rest.Nodup := (List.nodup_cons.1 hnd).2
      show (alistGet t (insertsFromReceiptsGo true (alistErase r store)
        (mergeBucket acc ((alistGet r store).getD [])) rest).1).getD [] = _
      rw [ih _ _ hnd' t, mergeBucket_get]
      have hmap : rest.map
            (fun r' => bucketConcat t ((alistGet r' (alistErase r store)).getD []))
          = rest.map (fun r' => bucketConcat t ((alistGet r' store).getD [])) := by
        apply List.map_congr_left
        intro r' hr'
        have hne : r ≠ r' := fun he => hnotin (he ▸ hr')
        rw [alistGet_erase_ne _ _ _ hne]
      rw [hmap, List.map_cons, List.flatten_cons, List.append_assoc]

/-- C8: flushing an explicit receipt list that excludes receipt `A` leaves
`A`'s bucket unchanged in the session store, removes every consumed (listed)
receipt from the store, and returns, per table/Component, exactly the
concatenation of the selected receipts' payload lists (in selection order). -/
theorem collect_inserts_session_isolation (store : Store) (rs : List String)
    (A : String) (hA : A ∉ rs) (hnd : rs.Nodup) :
    alistGet A (Collector.collect_inserts store (some rs)).2 = alistGet A store
    ∧ (∀ r ∈ rs, alistGet r (Collector.collect_inserts store (some rs)).2 = none)
    ∧ (∀ t, (alistGet t (Collector.collect_inserts store (some rs)).1).getD []
        = (rs.map (fun r => bucketConcat t ((alistGet r store).getD []))).flatten) := by
  refine ⟨?_, ?_, ?_⟩
  · exact insertsGo_pop_frame rs store [] A hA
  · intro r hr
    exact insertsGo_pop_removed rs store [] r hr
  · intro t
    simpa using insertsGo_pop_merged rs store [] hnd t

/-- Witness for C8: a store holding inserts under receipts `"A"` and `"B"`;
flushing `["B"]` keeps `"A"`'s bucket intact, drops `"B"`, and returns exactly
`"B"`'s payload lists. -/
theorem collect_inserts_session_isolation_witness :
    ("A" ∉ (["B"] : List String))
    ∧ alistGet "A" (Collector.collect_inserts
        [("A", [("t", [[("x", "1")]])]), ("B", [("t", [[("y", "2")]]), ("u", [[("z", "3")]])])]
        (some ["B"])).2 = some [("t", [[("x", "1")]])]
    ∧ alistGet "B" (Collector.collect_inserts
        [("A", [("t", [[("x", "1")]])]), ("B", [("t", [[("y", "2")]]), ("u", [[("z", "3")]])])]
        (some ["B"])).2 = none
    ∧ (alistGet "t" (Collector.collect_inserts
        [("A", [("t", [[("x", "1")]])]), ("B", [("t", [[("y", "2")]]), ("u", [[("z", "3")]])])]
        (some ["B"])).1).getD [] = [[("y", "2")]] := by
  have h := collect_inserts_session_isolation
    [("A", [("t", [[("x", "1")]])]), ("B", [("t", [[("y", "2")]]), ("u", [[("z", "3")]])])]
    ["B"] "A" (by decide) (by decide)
  refine ⟨by decide, ?_, h.2.1 "B" (by decide), ?_⟩
  · rw [h.1]
    decide
  · rw [h.2.2 "t"]
    decide

/-! ## Claim C3: bidirectional registry consistency -/

theorem alistAppend_mem_mono (g0 g : GroupName) (y x : ActionKey)
    (gr : List (GroupName × List ActionKey))
    (h : ∃ l, alistGet g gr = some l ∧ x ∈ l) :
    ∃ l', alistGet g (alistAppend g0 y gr) = some l' ∧ x ∈ l' := by
  obtain ⟨l, hl, hx⟩ := h
  by_cases hg : g0 = g
  · subst hg
    refine ⟨_, alistGet_append_self g0 y gr, ?_⟩
    rw [hl]
    exact List.mem_append_left _ hx
  · exact ⟨l, by rw [alistGet_append_ne _ _ _ _ hg]; exact hl, hx⟩

theorem alistAppend_mem_cases (g0 g : GroupName) (y x : ActionKey)
    (gr : List (GroupName × List ActionKey)) (l' : List ActionKey)
    (h : alistGet g (alistAppend g0 y gr) = some l') (hx : x ∈ l') :
    (∃ l, alistGet g gr = some l ∧ x ∈ l) ∨ (x = y ∧ g = g0) := by
  by_cases hg : g0 = g
  · subst hg
    rw [alistGet_append_self] at h
    have hl' : l' = (alistGet g0 gr).getD [] ++ [y] := (Option.some.inj h).symm
    subst hl'
    rcases List.mem_append.1 hx with hxl | hxy
    · cases hget : alistGet g0 gr with
      | none => rw [hget] at hxl; simp at hxl
      | some l =>
          rw [hget] at hxl
          simp only [Option.getD_some] at hxl
          exact Or.inl ⟨l, rfl, hxl⟩
    · exact Or.inr ⟨List.mem_singleton.1 hxy, rfl⟩
  · rw [alistGet_append_ne _ _ _ _ hg] at h
    exact Or.inl ⟨l', h, hx⟩

theorem appendGroups_mem_mono (key : ActionKey) (gs : List GroupName) :
    ∀ (gr : List (GroupName × List ActionKey)) (g : GroupName) (x : ActionKey),
      (∃ l, alistGet g gr = some l ∧ x ∈ l) →
      ∃ l', alistGet g (appendGroups key gs gr) = some l' ∧ x ∈ l' := by
  induction gs with
  | nil => intro gr g x h; exact h
  | cons g0 rest ih =>
      intro gr g x h
      exact ih _ _ _ (alistAppend_mem_mono g0 g key x gr h)

theorem appendGroups_mem_self (key : ActionKey) (gs : List GroupName) :
    ∀ (gr : List (GroupName × List ActionKey)) (g : GroupName), g ∈ gs →
      ∃ l', alistGet g (appendGroups key gs gr) = some l' ∧ key ∈ l' := by
  induction gs with
  | nil => intro gr g hg; cases hg
  | cons g0 rest ih =>
      intro gr g hg
      rcases List.mem_cons.1 hg with h | h
      · subst h
        exact appendGroups_mem_mono key rest _ g key
          ⟨_, alistGet_append_self g key gr,
            List.mem_append_right _ (List.mem_singleton.2 rfl)⟩
      · exact ih _ _ h

theorem appendGroups_mem_cases (key : ActionKey) (gs : List GroupName) :
    ∀ (gr : List (GroupName × List ActionKey)) (g : GroupName) (x : ActionKey)
      (l' : List ActionKey),
      alistGet g (appendGroups key gs gr) = some l' → x ∈ l' →
      (∃ l, alistGet g gr = some l ∧ x ∈ l) ∨ (x = key ∧ g ∈ gs) := by
  induction gs with
  | nil => intro gr g x l' h hx; exact Or.inl ⟨l', h, hx⟩
  | cons g0 rest ih =>
      intro gr g x l' h hx
      rcases ih _ _ _ _ h hx with hc | hc
      · obtain ⟨l, hl, hxl⟩ := hc
        rcases alistAppend_mem_cases g0 g key x gr l hl hxl with h2 | h2
        · exact Or.inl h2
        · exact Or.inr ⟨h2.1, by rw [h2.2]; exact List.mem_cons_self _ _⟩
      · exact Or.inr ⟨hc.1, List.mem_cons_of_mem _ hc.2⟩

theorem regInv_insert_implicit (decls : List Decl)
    (kr : List (String × (Nat × List GroupName))) (anon : List (GroupName × Nat))
    (gr : List (GroupName × List ActionKey)) (g0 : GroupName) (m : Nat)
    (hr : RegInv decls ⟨kr, anon, gr⟩) :
    RegInv decls ⟨kr, alistInsert g0 m anon, alistAppend g0 (none : ActionKey) gr⟩ := by
  obtain ⟨⟨c1, c2, c3⟩, c4⟩ := hr
  refine ⟨⟨?_, ?_, ?_⟩, ?_⟩
  · intro g keys hkeys x hx
    rcases alistAppend_mem_cases g0 g none x gr keys hkeys hx with hc | hc
    · obtain ⟨l, hl, hxl⟩ := hc
      have hold := c1 g l hl x hxl
      cases x with
      | some k'' => exact hold
      | none =>
          obtain ⟨mth, hmth⟩ := hold
          by_cases hgg : g = g0
          · subst hgg
            exact ⟨m, alistGet_insert_self _ _ _⟩
          · exact ⟨mth, by
              show alistGet g (alistInsert g0 m anon) = some mth
              rw [alistGet_insert_ne g g0 m anon (fun he => hgg he.symm)]
              exact hmth⟩
    · obtain ⟨hxn, hgg⟩ := hc
      subst hxn
      subst hgg
      exact ⟨m, alistGet_insert_self _ _ _⟩
  · intro k'' mth gs0 hget g hg
    exact alistAppend_mem_mono g0 g none (some k'') gr (c2 k'' mth gs0 hget g hg)
  · intro g mth hget
    by_cases hgg : g = g0
    · subst hgg
      refine ⟨_, alistGet_append_self g none gr, ?_⟩
      exact List.mem_append_right _ (List.mem_singleton.2 rfl)
    · have hget' : alistGet g anon = some mth := by
        rw [alistGet_insert_ne g g0 m anon (fun he => hgg he.symm)] at hget
        exact hget
      exact alistAppend_mem_mono g0 g none none gr (c3 g mth hget')
  · intro k'' mth gs0 hget
    exact c4 k'' mth gs0 hget

theorem regInv_insert_explicit (decls : List Decl)
    (kr : List (String × (Nat × List GroupName))) (anon : List (GroupName × Nat))
    (gr : List (GroupName × List ActionKey)) (k : String) (gs : List GroupName)
    (m : Nat) (hkg : KeyGroupsOf decls k gs)
    (hsame : ∀ gs', KeyGroupsOf decls k gs' → gs' = gs)
    (hr : RegInv decls ⟨kr, anon, gr⟩) :
    RegInv decls
      ⟨alistInsert k (m, gs) kr, anon, appendGroups (some k) gs gr⟩ := by
  obtain ⟨⟨c1, c2, c3⟩, c4⟩ := hr
  refine ⟨⟨?_, ?_, ?_⟩, ?_⟩
  · intro g keys hkeys x hx
    rcases appendGroups_mem_cases (some k) gs gr g x keys hkeys hx with hc | hc
    · obtain ⟨l, hl, hxl⟩ := hc
      have hold := c1 g l hl x hxl
      cases x with
      | none => exact hold
      | some k'' =>
          obtain ⟨mth, gs', hget, hgmem⟩ := hold
          by_cases hkk : k'' = k
          · subst hkk
            have hgs' : gs' = gs := hsame gs' (c4 _ _ _ hget)
            exact ⟨m, gs, alistGet_insert_self _ _ _, hgs' ▸ hgmem⟩
          · refine ⟨mth, gs', ?_, hgmem⟩
            show alistGet k'' (alistInsert k (m, gs) kr) = some (mth, gs')
            rw [alistGet_insert_ne k'' k (m, gs) kr (fun he => hkk he.symm)]
            exact hget
    · obtain ⟨hxk, hgmem⟩ := hc
      subst hxk
      exact ⟨m, gs, alistGet_insert_self _ _ _, hgmem⟩
  · intro k'' mth gs0 hget g hg
    by_cases hkk : k'' = k
    · subst hkk
      rw [alistGet_insert_self] at hget
      injection hget with h2
      injection h2 with h3 h4
      subst h4
      exact appendGroups_mem_self _ _ gr g hg
    · have hget' : alistGet k'' kr = some (mth, gs0) := by
        rw [alistGet_insert_ne k'' k (m, gs) kr (fun he => hkk he.symm)] at hget
        exact hget
      exact appendGroups_mem_mono (some k) gs gr g (some k'')
        (c2 k'' mth gs0 hget' g hg)
  · intro g mth hget
    exact appendGroups_mem_mono (some k) gs gr g none (c3 g mth hget)
  · intro k'' mth gs0 hget
    by_cases hkk : k'' = k
    · subst hkk
      rw [alistGet_insert_self] at hget
      injection hget with h2
      injection h2 with h3 h4
      subst h4
      exact hkg
    · have hget' : alistGet k'' kr = some (mth, gs0) := by
        rw [alistGet_insert_ne k'' k (m, gs) kr (fun he => hkk he.symm)] at hget
        exact hget
      exact c4 k'' mth gs0 hget'

theorem regInv_step (decls : List Decl) (r : Registry) (d : Decl)
    (hmem : d ∈ decls) (hu : UniqueKeyGroups decls) (hi : ImplicitSingleGroup decls)
    (hr : RegInv decls r) : RegInv decls (register_action r d) := by
  obtain ⟨kr, anon, gr⟩ := r
  obtain ⟨dkey, dgroups, dmethod⟩ := d
  cases dkey with
  | none =>
      have hlen : dgroups.length = 1 := hi _ hmem rfl
      obtain ⟨g0, hg0⟩ : ∃ g0, dgroups = [g0] := by
        cases dgroups with
        | nil => simp at hlen
        | cons a t =>
            cases t with
            | nil => exact ⟨a, rfl⟩
            | cons b t2 => simp at hlen
      subst hg0
      exact regInv_insert_implicit decls kr anon gr g0 dmethod hr
  | some k =>
      have hkg : KeyGroupsOf decls k dgroups :=
        ⟨⟨some k, dgroups, dmethod⟩, hmem, rfl, rfl⟩
      have hsame : ∀ gs', KeyGroupsOf decls k gs' → gs' = dgroups := by
        intro gs' hgs'
        obtain ⟨d', hd'mem, hd'key, hd'groups⟩ := hgs'
        have hne : d'.key ≠ none := by rw [hd'key]; exact Option.some_ne_none k
        have heq : d'.key = Decl.key ⟨some k, dgroups, dmethod⟩ := by rw [hd'key]
        have := hu d' hd'mem ⟨some k, dgroups, dmethod⟩ hmem hne heq
        rw [← hd'groups]
        exact this
      exact regInv_insert_explicit decls kr anon gr k dgroups dmethod hkg hsame hr

theorem regInv_fold (decls : List Decl) (hu : UniqueKeyGroups decls)
    (hi : ImplicitSingleGroup decls) :
    ∀ (l : List Decl) (r : Registry), (∀ d ∈ l, d ∈ decls) → RegInv decls r →
      RegInv decls (l.foldl register_action r) := by
  intro l
  induction l with
  | nil => intro r _ hr; exact hr
  | cons d rest ih =>
      intro r hsub hr
      exact ih _ (fun d' hd' => hsub d' (List.mem_cons_of_mem _ hd'))
        (regInv_step decls r d (hsub d (List.mem_cons_self _ _)) hu hi hr)

/-- C3 counterexample: with `cexDecls` (key `"k"` declared under group `"g1"`,
then redeclared under `"g2"` only — the situation claim C4 calls the override
law), `group_registry["g1"]` still lists `"k"`, but `key_registry["k"]`
records only `["g2"]`: the two registries do not agree bidirectionally, so the
claim fails for this declared type. -/
theorem registry_consistency_cex : ¬ registryConsistent (buildRegistry cexDecls) := by
  intro h
  obtain ⟨h1, -, -⟩ := h
  have hg : alistGet (some "g1") (buildRegistry cexDecls).group_registry
      = some [some "k"] := by decide
  have hk := h1 _ _ hg (some "k") (by decide)
  obtain ⟨mth, gs, hget, hmem⟩ := hk
  have hkk : alistGet "k" (buildRegistry cexDecls).key_registry
      = some (1, [some "g2"]) := by decide
  rw [hkk] at hget
  simp only [Option.some.injEq, Prod.mk.injEq] at hget
  rw [← hget.2] at hmem
  exact absurd hmem (by decide)

/-- C3 (amended): for every declared CO3 subtype whose registration sequence
never redeclares an explicit key with a different group list and whose
implicit registrations each carry a single group (the `collate` decorator's
normal output), the two registries agree bidirectionally: every key listed in
`group_registry[g]` appears in `key_registry` (or, for the anonymous marker,
in the anonymous-key map for `g`) with `g` recorded, and conversely every
group recorded for a key lists that key. -/
theorem registry_consistency_of_unique_keys (decls : List Decl)
    (hu : UniqueKeyGroups decls) (hi : ImplicitSingleGroup decls) :
    registryConsistent (buildRegistry decls) := by
  have base : RegInv decls ⟨[], [], []⟩ := by
    refine ⟨⟨?_, ?_, ?_⟩, ?_⟩
    · intro g keys h
      simp at h
    · intro k mth gs h
      simp at h
    · intro g mth h
      simp at h
    · intro k mth gs h
      simp at h
  exact (regInv_fold decls hu hi decls ⟨[], [], []⟩ (fun d hd => hd) base).1

/-- Witness for C3 on the `Tomato` registration sequence (three explicit keys
plus one implicit `cut` handler). -/
theorem registry_consistency_of_unique_keys_witness :
    UniqueKeyGroups tomatoDecls ∧ ImplicitSingleGroup tomatoDecls
    ∧ registryConsistent (buildRegistry tomatoDecls) :=
  ⟨by decide, by decide,
   registry_consistency_of_unique_keys tomatoDecls (by decide) (by decide)⟩

end Co3
